import Mathlib

/-!
# Verification of the dual-source field reconciliation engine

Shallow embedding of `packages/desktop/src-tauri/src/opencode_config.rs`.

Modelling conventions:
* Rust `String`/`&str` values are modelled as `List Char` (`Str`), so the
  character-level algorithms (comment stripping, regex matching on the
  frontmatter delimiters and the `\x7bfile:...\x7d` pattern, trimming) can be
  translated literally.  Whitespace is modelled at the ASCII level
  (space, tab, CR, LF), which covers every character the algorithms treat
  specially.
* `serde_json::Value` is modelled by the closed variant `Value`
  (null / bool / number / string / sequence / mapping); JSON numbers are
  modelled as integers, no claim depends on fractional values.  JSON and YAML
  maps are modelled as association lists whose operations mirror the map API
  used by the source (`get`, `insert`, `remove`, `contains_key`); key order is
  a representation detail no claim depends on.
* The filesystem is a collaborator: file existence flags and parsed file
  contents are inputs, and the writes an operation performs are returned as an
  explicit trace (`WriteEv`), in the order the source performs them.  An
  operation that aborts with an error reports the writes performed before the
  abort.
* The serde_yaml collaborator ("parse/serialize a flat mapping") is modelled
  by a concrete invertible single-line-per-field codec: per its contract the
  serializer emits a block that the parser maps back to the same flat mapping,
  and (matching serde_yaml's emitter) no emitted line ever equals the `---`
  delimiter line, and the empty map is emitted as a `\x7b\x7d` line.
* Home-relative paths are modelled against a fixed home directory.
-/

/-! ## Strings, whitespace, trimming, paths -/

abbrev Str := List Char

/-- Shorthand to write a `Str` from a string literal. -/
def cs (s : String) : Str := s.toList

/-- ASCII fragment of Rust `char::is_whitespace`, covering every character the
translated algorithms treat specially. -/
def isWs (c : Char) : Bool := c = ' ' || c = '\t' || c = '\n' || c = '\r'

/-- Rust `str::trim`: drop whitespace from both ends. -/
def trimStr (s : Str) : Str :=
  ((List.dropWhile isWs ((List.dropWhile isWs s).reverse)).reverse : List Char)

/-- `PathBuf::join` for a relative component. -/
def path_join (base rel : Str) : Str := base ++ ('/' :: rel)

/-- `Path::is_absolute` on unix: the path starts with `/`. -/
def is_absolute_path (p : Str) : Bool :=
  match p with
  | '/' :: _ => true
  | _ => false

/-- `dirs::home_dir()`, modelled as a fixed directory. -/
def home_dir : Str := cs "/home/user"

/-- `get_config_dir`: `<home>/.config/opencode`. -/
def get_config_dir : Str := home_dir ++ cs "/.config/opencode"

/-- `get_agent_dir().join("<name>.md")`. -/
def agent_md_path (name : Str) : Str :=
  get_config_dir ++ cs "/agent/" ++ name ++ cs ".md"

/-- `get_user_command_path`. -/
def get_user_command_path (name : Str) : Str :=
  get_config_dir ++ cs "/command/" ++ name ++ cs ".md"

/-- `get_project_command_path`. -/
def get_project_command_path (working_directory name : Str) : Str :=
  working_directory ++ cs "/.opencode/command/" ++ name ++ cs ".md"

/-- `get_config_file`. -/
def get_config_file : Str := get_config_dir ++ cs "/opencode.json"

/-! ## The dynamic value type and association-list maps -/

/-- Model of `serde_json::Value`: a closed tagged variant. -/
inductive Value where
  | null : Value
  | bool : Bool → Value
  | num : Int → Value
  | str : Str → Value
  | arr : List Value → Value
  | obj : List (Str × Value) → Value

/-- `Value::is_null`. -/
def Value.isNull : Value → Bool
  | .null => true
  | _ => false

/-- `Value::as_str`. -/
def Value.asStr : Value → Option Str
  | .str s => some s
  | _ => none

/-- Association-list model of the string-keyed maps used by the source. -/
abbrev Fields := List (Str × Value)

/-- Map lookup (`get`). -/
def alGet : Fields → Str → Option Value
  | [], _ => none
  | (k', v') :: rest, k => if k' = k then some v' else alGet rest k

/-- `contains_key`. -/
def alContains (m : Fields) (k : Str) : Bool := (alGet m k).isSome

/-- Map `insert`: replace the value at an existing key, else append. -/
def alInsert : Fields → Str → Value → Fields
  | [], k, v => [(k, v)]
  | (k', v') :: rest, k, v =>
      if k' = k then (k, v) :: rest else (k', v') :: alInsert rest k v

/-- Map `remove` (keys are unique in the modelled maps). -/
def alRemove : Fields → Str → Fields
  | [], _ => []
  | (k', v') :: rest, k => if k' = k then rest else (k', v') :: alRemove rest k

/-- Entity lookup inside the structured document:
`config.get(section).and_then(as_object).and_then(get name)`. -/
def getSectionEntry (config : Value) (section_ name : Str) : Option Value :=
  match config with
  | .obj fs =>
    match alGet fs section_ with
    | some (.obj ents) => alGet ents name
    | _ => none
  | _ => none

/-- The fields-object of an entity in the structured document:
`...and_then(as_object).cloned().unwrap_or_else(Map::new)`. -/
def getSectionFields (config : Value) (section_ name : Str) : Fields :=
  match getSectionEntry config section_ name with
  | some (.obj flds) => flds
  | _ => []

/-- Whether the structured document's section already contains the name
(`get(section).and_then(as_object)` then `contains_key(name)`). -/
def sectionContains (config : Value) (section_ name : Str) : Bool :=
  match config with
  | .obj fs =>
    match alGet fs section_ with
    | some (.obj ents) => alContains ents name
    | _ => false
  | _ => false

/-- The normalisation at the end of `update_agent` / `update_command` /
`delete_agent` that stores an entity record back into the structured document:
replace a non-object root by `{}`, materialise the section entry if absent or
non-object, and insert the entity record. -/
def setSectionEntry (config : Value) (section_ name : Str) (entity : Value) : Value :=
  let fs := match config with
    | .obj fs => fs
    | _ => []
  let ents := match alGet fs section_ with
    | some (.obj ents) => ents
    | _ => []
  .obj (alInsert fs section_ (.obj (alInsert ents name entity)))

/-! ## Error taxonomy and write traces -/

/-- Error taxonomy of the engine (spec section 7). -/
inductive Err where
  | alreadyExists : Err
  | notFound : Err
  | invalidRef : Err
  | parseError : Str → Err
deriving DecidableEq

/-- An observable write performed by an operation, in program order. -/
inductive WriteEv where
  /-- `write_md_file(path, frontmatter, body)` (after null-field cleaning). -/
  | mdWrite : Str → Fields → Str → WriteEv
  /-- `write_config(config)`. -/
  | jsonWrite : Value → WriteEv
  /-- `write_prompt_file(path, content)`. -/
  | promptWrite : Str → Str → WriteEv
  /-- `fs::remove_file(path)`. -/
  | fileDelete : Str → WriteEv

/-- Outcome of an operation: the writes performed (in order) and the error it
returned, if any.  On an error the trace holds the writes performed before
the abort. -/
structure OpResult where
  writes : List WriteEv
  err : Option Err

/-! ## strip_json_comments -/

/-- Lexer mode for the `strip_json_comments` character loop: outside a string,
just after a `/` outside a string, inside a string, inside a string after a
backslash, inside a line comment, inside a block comment (carrying the
previous character for `*/` detection). -/
inductive StripMode where
  | code : StripMode
  | sawSlash : StripMode
  | inStr : StripMode
  | strEsc : StripMode
  | lineComment : StripMode
  | blockComment : Char → StripMode

/-- The `strip_json_comments` loop as a character automaton.  `code`/`inStr`/
`strEsc` mirror the `in_string`/`escape_next` flags; `sawSlash` mirrors the
one-character peek after `/`; comments are skipped with the line comment
emitting the terminating newline and the block comment tracking the previous
character (initialised to a space, so `/*/` does not close the comment). -/
def stripRun : Str → StripMode → Str
  | [], m => match m with
    | .sawSlash => ['/']
    | _ => []
  | c :: rest, .code =>
    if c = '"' then c :: stripRun rest .inStr
    else if c = '/' then stripRun rest .sawSlash
    else c :: stripRun rest .code
  | c :: rest, .sawSlash =>
    if c = '/' then stripRun rest .lineComment
    else if c = '*' then stripRun rest (.blockComment ' ')
    else if c = '"' then '/' :: c :: stripRun rest .inStr
    else '/' :: c :: stripRun rest .code
  | c :: rest, .inStr =>
    if c = '\\' then c :: stripRun rest .strEsc
    else if c = '"' then c :: stripRun rest .code
    else c :: stripRun rest .inStr
  | c :: rest, .strEsc => c :: stripRun rest .inStr
  | c :: rest, .lineComment =>
    if c = '\n' then c :: stripRun rest .code
    else stripRun rest .lineComment
  | c :: rest, .blockComment prev =>
    if prev = '*' && c = '/' then stripRun rest .code
    else stripRun rest (.blockComment c)

/-- `strip_json_comments`. -/
def strip_json_comments (content : Str) : Str := stripRun content .code

/-- `read_config`, with the filesystem and the serde_json parser as
collaborators: `file_exists` is whether `opencode.json` exists, `content` its
raw text, and `parse` the JSON parser (returning the error cause on
malformed input). -/
def read_config (file_exists : Bool) (content : Str)
    (parse : Str → Except Str Value) : Except Err Value :=
  if !file_exists then .ok (.obj [])
  else
    let normalized := trimStr (strip_json_comments content)
    if normalized = [] then .ok (.obj [])
    else
      match parse normalized with
      | .ok v => .ok v
      | .error e => .error (.parseError e)

/-! ## The indirection resolver -/

/-- The regex `(?i)^\x7bfile:(.+)\x7d$` applied to an (already trimmed) value:
the value must start with `{file:` (letters case-insensitive), end with `}`,
and the greedy capture between them must be non-empty and contain no newline
(`.` does not match `\n`). -/
def matchRefCore (s : Str) : Option Str :=
  match s with
  | '\x7b' :: f :: i :: l :: e :: ':' :: rest =>
    if f.toLower = 'f' && i.toLower = 'i' && l.toLower = 'l' && e.toLower = 'e' then
      match rest.reverse with
      | '\x7d' :: revT =>
        let target := revT.reverse
        if target ≠ [] && !target.contains '\n' then some target else none
      | _ => none
    else none
  | _ => none

/-- `is_prompt_file_reference`: the trimmed value matches the pattern. -/
def is_prompt_file_reference (value : Str) : Bool :=
  (matchRefCore (trimStr value)).isSome

/-- `resolve_prompt_file_path`: trim, capture the target, trim it; an empty
target yields no path; `./`-targets and other relative targets are joined
under the configuration root, absolute targets are used as-is. -/
def resolve_prompt_file_path (reference : Str) : Option Str :=
  match matchRefCore (trimStr reference) with
  | none => none
  | some cap =>
    let target := trimStr cap
    if target = [] then none
    else if target.take 2 = ['.', '/'] then
      some (path_join get_config_dir (target.drop 2))
    else if is_absolute_path target then some target
    else some (path_join get_config_dir target)


/-! ## The field reconciliation loop (update_agent / update_command) -/

/-- Mutable state of the per-field update loop: the frontmatter mapping and
body (`md_data`), the entity's structured fields-object (`existing_agent` /
`existing_command`), the two modified flags, the prompt-file writes performed
so far, and the error that aborted the loop, if any. -/
structure UpdSt where
  fm : Fields
  body : Str
  jobj : Fields
  mdMod : Bool
  jsonMod : Bool
  pws : List WriteEv
  err : Option Err

/-- One iteration of the `update_agent` field loop (source lines 445-527).
For agents `md_data` is `Some` exactly when the frontmatter file exists, so
frontmatter accesses are guarded by `mdExists`.  Note that when the
frontmatter file exists the prompt branch sets the body and then *falls
through* to the structured insert of the prompt. -/
def agent_step (mdExists : Bool) (st : UpdSt) (field : Str) (value : Value) : UpdSt :=
  if st.err.isSome then st
  else if value.isNull then
    -- explicit removal: from frontmatter if present, from the JSON entry if present
    let st1 := if mdExists && alContains st.fm field then
        { st with fm := alRemove st.fm field, mdMod := true } else st
    if alContains st1.jobj field then
      { st1 with jobj := alRemove st1.jobj field, jsonMod := true }
    else st1
  else if field = cs "prompt" then
    let nv := value.asStr.getD []
    let st1 := if mdExists then { st with body := nv, mdMod := true } else st
    if mdExists then
      -- fallthrough: the prompt is also written into the JSON entry
      { st1 with jobj := alInsert st1.jobj (cs "prompt") (.str nv), jsonMod := true }
    else
      match (alGet st.jobj (cs "prompt")).bind Value.asStr with
      | some prompt_ref =>
        if is_prompt_file_reference prompt_ref then
          match resolve_prompt_file_path prompt_ref with
          | some p => { st1 with pws := st1.pws ++ [.promptWrite p nv] }
          | none => { st1 with err := some .invalidRef }
        else { st1 with jobj := alInsert st1.jobj (cs "prompt") (.str nv), jsonMod := true }
      | none => { st1 with jobj := alInsert st1.jobj (cs "prompt") (.str nv), jsonMod := true }
  else
    let inMd := mdExists && alContains st.fm field
    let inJson := alContains st.jobj field
    if inMd then { st with fm := alInsert st.fm field value, mdMod := true }
    else if inJson then { st with jobj := alInsert st.jobj field value, jsonMod := true }
    else if mdExists && !st.jobj.isEmpty then
      { st with jobj := alInsert st.jobj field value, jsonMod := true }
    else if mdExists then { st with fm := alInsert st.fm field value, mdMod := true }
    else { st with jobj := alInsert st.jobj field value, jsonMod := true }

/-- `update_agent`: inputs are the frontmatter file's existence and parsed
contents, the structured document, and the update set in iteration order;
the output is the trace of writes.  After the loop, a structured write is
suppressed when the frontmatter file exists and the entity had no
pre-existing structured fields. -/
def update_agent (mdExists : Bool) (parsedFm : Fields) (parsedBody : Str)
    (config : Value) (name : Str) (updates : List (Str × Value)) : OpResult :=
  let jobj0 := getSectionFields config (cs "agent") name
  let hadJson := !jobj0.isEmpty
  let st0 : UpdSt :=
    { fm := if mdExists then parsedFm else [],
      body := if mdExists then parsedBody else [],
      jobj := jobj0, mdMod := false, jsonMod := false, pws := [], err := none }
  let st := updates.foldl (fun s fv => agent_step mdExists s fv.1 fv.2) st0
  match st.err with
  | some e => { writes := st.pws, err := some e }
  | none =>
    let w1 := if st.mdMod then st.pws ++ [.mdWrite (agent_md_path name) st.fm st.body]
              else st.pws
    let jm := st.jsonMod && !(mdExists && !hadJson)
    if jm then
      { writes := w1 ++ [.jsonWrite (setSectionEntry config (cs "agent") name (.obj st.jobj))],
        err := none }
    else { writes := w1, err := none }

/-- One iteration of the `update_command` field loop (source lines 794-871).
For commands `md_data` is always `Some` (an empty document is materialised
when the file does not exist) and `creating_new_md = !md_exists`, so the
template branch and the new-field branch always prefer the frontmatter
document; the template-indirection branch is unreachable. -/
def command_step (mdExists : Bool) (st : UpdSt) (field : Str) (value : Value) : UpdSt :=
  let creatingNewMd := !mdExists
  if st.err.isSome then st
  else if value.isNull then
    let st1 := if mdExists && alContains st.fm field then
        { st with fm := alRemove st.fm field, mdMod := true } else st
    if alContains st1.jobj field then
      { st1 with jobj := alRemove st1.jobj field, jsonMod := true }
    else st1
  else if field = cs "template" then
    let nv := value.asStr.getD []
    if mdExists || creatingNewMd then { st with body := nv, mdMod := true }
    else
      match (alGet st.jobj (cs "template")).bind Value.asStr with
      | some template_ref =>
        if is_prompt_file_reference template_ref then
          match resolve_prompt_file_path template_ref with
          | some p => { st with pws := st.pws ++ [.promptWrite p nv] }
          | none => { st with err := some .invalidRef }
        else { st with body := nv, mdMod := true }
      | none => { st with body := nv, mdMod := true }
  else
    let inMd := alContains st.fm field
    let inJson := alContains st.jobj field
    if inMd || creatingNewMd then { st with fm := alInsert st.fm field value, mdMod := true }
    else if inJson then { st with jobj := alInsert st.jobj field value, jsonMod := true }
    else if mdExists || creatingNewMd then
      { st with fm := alInsert st.fm field value, mdMod := true }
    else { st with jobj := alInsert st.jobj field value, jsonMod := true }

/-- `update_command`: like `update_agent`, but the frontmatter target falls
back to the user-scope path when no frontmatter file exists, and the loop is
`command_step`.  `mdPath` is the path resolved by `get_command_write_path`. -/
def update_command (mdExists : Bool) (mdPath : Str) (parsedFm : Fields)
    (parsedBody : Str) (config : Value) (name : Str)
    (updates : List (Str × Value)) : OpResult :=
  let targetPath := if !mdExists then get_user_command_path name else mdPath
  let jobj0 := getSectionFields config (cs "command") name
  let hadJson := !jobj0.isEmpty
  let st0 : UpdSt :=
    { fm := if mdExists then parsedFm else [],
      body := if mdExists then parsedBody else [],
      jobj := jobj0, mdMod := false, jsonMod := false, pws := [], err := none }
  let st := updates.foldl (fun s fv => command_step mdExists s fv.1 fv.2) st0
  match st.err with
  | some e => { writes := st.pws, err := some e }
  | none =>
    let w1 := if st.mdMod then st.pws ++ [.mdWrite targetPath st.fm st.body] else st.pws
    let jm := st.jsonMod && !(mdExists && !hadJson)
    if jm then
      { writes := w1 ++ [.jsonWrite (setSectionEntry config (cs "command") name (.obj st.jobj))],
        err := none }
    else { writes := w1, err := none }

/-! ## Lifecycle operations -/

/-- `create_agent`: duplicate checks against the frontmatter path and the
structured section, then extraction of the `prompt` body and a single
frontmatter write. -/
def create_agent (mdExists : Bool) (config : Value) (name : Str)
    (cfg : Fields) : OpResult :=
  if mdExists then { writes := [], err := some .alreadyExists }
  else if sectionContains config (cs "agent") name then
    { writes := [], err := some .alreadyExists }
  else
    let prompt := ((alGet cfg (cs "prompt")).bind Value.asStr).getD []
    let frontmatter := alRemove cfg (cs "prompt")
    { writes := [.mdWrite (agent_md_path name) frontmatter prompt], err := none }

/-- Command scope. -/
inductive CommandScope where
  | user : CommandScope
  | project : CommandScope
deriving DecidableEq

/-- `get_command_scope`: with the filesystem existence predicate as a
collaborator; project scope is checked first when a working directory is
supplied. -/
def get_command_scope (ex : Str → Bool) (name : Str) (working_directory : Option Str) :
    Option CommandScope × Option Str :=
  match working_directory with
  | some wd =>
    if ex (get_project_command_path wd name) then
      (some .project, some (get_project_command_path wd name))
    else if ex (get_user_command_path name) then
      (some .user, some (get_user_command_path name))
    else (none, none)
  | none =>
    if ex (get_user_command_path name) then
      (some .user, some (get_user_command_path name))
    else (none, none)

/-- `create_command`: duplicate checks against the project-scope path (when a
working directory is supplied), the user-scope path and the structured
section; then the target is resolved from the requested scope, the
`template` body is extracted and the transient `scope` field stripped, and a
single frontmatter write is performed. -/
def create_command (working_directory : Option Str) (projectExists userExists : Bool)
    (config : Value) (name : Str) (cfg : Fields) (scope : Option CommandScope) : OpResult :=
  if working_directory.isSome && projectExists then
    { writes := [], err := some .alreadyExists }
  else if userExists then { writes := [], err := some .alreadyExists }
  else if sectionContains config (cs "command") name then
    { writes := [], err := some .alreadyExists }
  else
    let targetPath :=
      if scope = some CommandScope.project then
        match working_directory with
        | some wd => get_project_command_path wd name
        | none => get_user_command_path name
      else get_user_command_path name
    let template := ((alGet cfg (cs "template")).bind Value.asStr).getD []
    let frontmatter := alRemove (alRemove cfg (cs "template")) (cs "scope")
    { writes := [.mdWrite targetPath frontmatter template], err := none }

/-- `delete_agent`: remove the frontmatter file if it exists, remove the
structured section entry if present (writing the document back), and if
nothing was deleted insert a `disable: true` record instead. -/
def delete_agent (mdExists : Bool) (config : Value) (name : Str) : OpResult :=
  let w1 : List WriteEv := if mdExists then [.fileDelete (agent_md_path name)] else []
  let step2 : Option Value :=
    match config with
    | .obj fs =>
      match alGet fs (cs "agent") with
      | some (.obj ents) =>
        if alContains ents name then
          some (.obj (alInsert fs (cs "agent") (.obj (alRemove ents name))))
        else none
      | _ => none
    | _ => none
  match step2 with
  | some c2 => { writes := w1 ++ [.jsonWrite c2], err := none }
  | none =>
    if mdExists then { writes := w1, err := none }
    else
      { writes := w1 ++ [.jsonWrite (setSectionEntry config (cs "agent") name
          (.obj [(cs "disable", .bool true)]))], err := none }

/-- `delete_command`: remove the project-scope file (when a working directory
is supplied), the user-scope file and the structured section entry; fail with
`NotFound` when nothing was deleted. -/
def delete_command (working_directory : Option Str) (projectExists userExists : Bool)
    (config : Value) (name : Str) : OpResult :=
  let w1 : List WriteEv := match working_directory with
    | some wd => if projectExists then [.fileDelete (get_project_command_path wd name)] else []
    | none => []
  let d1 : Bool := working_directory.isSome && projectExists
  let w2 := if userExists then w1 ++ [.fileDelete (get_user_command_path name)] else w1
  let d2 := d1 || userExists
  let step3 : Option Value :=
    match config with
    | .obj fs =>
      match alGet fs (cs "command") with
      | some (.obj ents) =>
        if alContains ents name then
          some (.obj (alInsert fs (cs "command") (.obj (alRemove ents name))))
        else none
      | _ => none
    | _ => none
  match step3 with
  | some c2 => { writes := w2 ++ [.jsonWrite c2], err := none }
  | none =>
    if d2 then { writes := w2, err := none }
    else { writes := w2, err := some .notFound }

/-! ## The frontmatter document store

`write_md_file` / `parse_md_file`, with the serde_yaml collaborator modelled
by a concrete invertible flat-mapping codec (see the header).  The codec
emits one `key: value` line per field; keys and rendered values are escaped
so that no emitted line contains a newline, a carriage return, or a bare
colon outside the separator, and no emitted line equals `---`. -/

/-- Escaping for the modelled YAML wire format: backslash, newline, carriage
return, semicolon and colon are escaped. -/
def escChar (c : Char) : Str :=
  if c = '\\' then ['\\', '\\']
  else if c = '\n' then ['\\', 'n']
  else if c = '\r' then ['\\', 'r']
  else if c = ';' then ['\\', 's']
  else if c = ':' then ['\\', 'c']
  else [c]

/-- Escape a string for the modelled YAML wire format. -/
def escSemi (s : Str) : Str := s.flatMap escChar

/-- Inverse of `escSemi`. -/
def unescSemi : Str → Str
  | [] => []
  | c :: r =>
    if c = '\\' then
      match r with
      | [] => [c]
      | d :: r2 =>
        if d = 'n' then '\n' :: unescSemi r2
        else if d = 'r' then '\r' :: unescSemi r2
        else if d = 's' then ';' :: unescSemi r2
        else if d = 'c' then ':' :: unescSemi r2
        else if d = '\\' then '\\' :: unescSemi r2
        else c :: unescSemi (d :: r2)
    else c :: unescSemi r

/-- Split at the first (terminator) semicolon. -/
def takeSemi : Str → Option (Str × Str)
  | [] => none
  | c :: r =>
    if c = ';' then some ([], r)
    else (takeSemi r).map fun p => (c :: p.1, p.2)

/-- Decimal digit to character. -/
def digitChar (d : Nat) : Char := Char.ofNat (48 + d)

/-- Character to decimal digit. -/
def charDigit (c : Char) : Option Nat :=
  if 48 ≤ c.toNat && c.toNat ≤ 57 then some (c.toNat - 48) else none

/-- Fueled digit extraction (structural, so concrete encodings evaluate). -/
def natDigsF : Nat → Nat → Str
  | 0, _ => []
  | f + 1, n =>
    if n < 10 then [digitChar n]
    else natDigsF f (n / 10) ++ [digitChar (n % 10)]

/-- Decimal digits of a natural number (most significant first). -/
def natDigs (n : Nat) : Str := natDigsF (n + 1) n

/-- Accumulating decimal reader: consume digits, return the value and rest. -/
def digsGo (acc : Nat) : Str → Nat × Str
  | [] => (acc, [])
  | c :: r =>
    match charDigit c with
    | some d => digsGo (10 * acc + d) r
    | none => (acc, c :: r)

/-- Integer encoding: optional sign, digits, `;` terminator. -/
def encInt (i : Int) : Str :=
  if i < 0 then '-' :: (natDigs i.natAbs ++ [';']) else natDigs i.toNat ++ [';']

/-- Integer decoding, inverse of `encInt` on its image. -/
def decIntSemi (s : Str) : Option (Int × Str) :=
  match s with
  | [] => none
  | c :: r =>
    if c = '-' then
      match digsGo 0 r with
      | (n, ';' :: r2) => some (-(n : Int), r2)
      | _ => none
    else
      match digsGo 0 (c :: r) with
      | (n, ';' :: r2) => some ((n : Int), r2)
      | _ => none

mutual
/-- Single-line rendering of a dynamic value (the modelled YAML scalar/
collection encoding): a tag character followed by a self-delimiting payload. -/
def encV : Value → Str
  | .null => ['z']
  | .bool false => ['f']
  | .bool true => ['t']
  | .num i => 'i' :: encInt i
  | .str s => 'q' :: (escSemi s ++ [';'])
  | .arr xs => 'a' :: (natDigs xs.length ++ ';' :: encVList xs)
  | .obj fs => 'o' :: (natDigs fs.length ++ ';' :: encVObj fs)

/-- Rendering of a list of values, concatenated. -/
def encVList : List Value → Str
  | [] => []
  | v :: vs => encV v ++ encVList vs

/-- Rendering of an object's fields, concatenated. -/
def encVObj : List (Str × Value) → Str
  | [] => []
  | kv :: fs => escSemi kv.1 ++ ';' :: (encV kv.2 ++ encVObj fs)
end

mutual
/-- Nesting depth of a value (drives the decoder's fuel). -/
def vdepth : Value → Nat
  | .arr xs => vdepthList xs + 1
  | .obj fs => vdepthObj fs + 1
  | _ => 0

/-- Nesting depth of a list of values. -/
def vdepthList : List Value → Nat
  | [] => 0
  | v :: vs => max (vdepth v) (vdepthList vs)

/-- Nesting depth of an object's fields. -/
def vdepthObj : List (Str × Value) → Nat
  | [] => 0
  | kv :: fs => max (vdepth kv.2) (vdepthObj fs)
end

/-- Decode `n` consecutive values with the one-value decoder `d`. -/
def decListWith (d : Str → Option (Value × Str)) : Nat → Str → Option (List Value × Str)
  | 0, s => some ([], s)
  | n + 1, s =>
    match d s with
    | some (v, r) => (decListWith d n r).map fun p => (v :: p.1, p.2)
    | none => none

/-- Decode `n` consecutive key/value pairs with the one-value decoder `d`. -/
def decObjWith (d : Str → Option (Value × Str)) : Nat → Str → Option (List (Str × Value) × Str)
  | 0, s => some ([], s)
  | n + 1, s =>
    match takeSemi s with
    | some (k, r) =>
      match d r with
      | some (v, r2) => (decObjWith d n r2).map fun p => ((unescSemi k, v) :: p.1, p.2)
      | none => none
    | none => none

/-- Fueled decoder for `encV`; any fuel exceeding the value's depth decodes
the encoding and returns the unconsumed rest. -/
def decV : Nat → Str → Option (Value × Str)
  | 0 => fun _ => none
  | fuel + 1 => fun s =>
    match s with
    | [] => none
    | c :: rest =>
      if c = 'z' then some (.null, rest)
      else if c = 'f' then some (.bool false, rest)
      else if c = 't' then some (.bool true, rest)
      else if c = 'i' then (decIntSemi rest).map fun p => (.num p.1, p.2)
      else if c = 'q' then (takeSemi rest).map fun p => (.str (unescSemi p.1), p.2)
      else if c = 'a' then
        match digsGo 0 rest with
        | (n, ';' :: r2) => (decListWith (decV fuel) n r2).map fun p => (.arr p.1, p.2)
        | _ => none
      else if c = 'o' then
        match digsGo 0 rest with
        | (n, ';' :: r2) => (decObjWith (decV fuel) n r2).map fun p => (.obj p.1, p.2)
        | _ => none
      else none

/-- One emitted line of the modelled YAML block: `key: value`. -/
def lineOf (kv : Str × Value) : Str := escSemi kv.1 ++ ':' :: ' ' :: encV kv.2

/-- The serde_yaml serializer for a flat mapping: one line per field, each
followed by a newline; the empty mapping is emitted as a `\x7b\x7d` line
(matching serde_yaml's emitter). -/
def yamlToString (m : Fields) : Str :=
  match m with
  | [] => '\x7b' :: '\x7d' :: ['\n']
  | _ => (m.map lineOf).foldr (fun l r => l ++ '\n' :: r) []

/-- Split at the first colon. -/
def splitColon : Str → Option (Str × Str)
  | [] => none
  | c :: r =>
    if c = ':' then some ([], r)
    else (splitColon r).map fun p => (c :: p.1, p.2)

/-- Parse one emitted line back into a key/value pair. -/
def parseLine (l : Str) : Option (Str × Value) :=
  match splitColon l with
  | some (k, ' ' :: t) =>
    match decV t.length t with
    | some (v, []) => some (unescSemi k, v)
    | _ => none
  | _ => none

/-- Split a block into its newline-separated lines. -/
def splitNl : Str → List Str
  | [] => [[]]
  | c :: r =>
    if c = '\n' then [] :: splitNl r
    else
      match splitNl r with
      | l :: ls => (c :: l) :: ls
      | [] => [[c]]

/-- Parse every line of a block. -/
def parseLines : List Str → Option Fields
  | [] => some []
  | l :: ls =>
    match parseLine l with
    | some kv => (parseLines ls).map fun m => kv :: m
    | none => none

/-- The serde_yaml parser for a flat mapping: the `\x7b\x7d` line parses to the
empty mapping, otherwise every line must be a `key: value` line. -/
def yamlParse (s : Str) : Option Fields :=
  if s = ['\x7b', '\x7d'] then some []
  else parseLines (splitNl s)

/-- `write_md_file`, returning the written file content: null-valued fields
are dropped, then `format!("---\n\x7b\x7d---\n\n\x7b\x7d", yaml_str, body)`. -/
def write_md_file (frontmatter : Fields) (body : Str) : Str :=
  let cleaned := frontmatter.filter fun kv => !kv.2.isNull
  let yaml_str := yamlToString cleaned
  cs "---" ++ '\n' :: (yaml_str ++ cs "---" ++ '\n' :: '\n' :: body)

/-- The trailing `\r?\n` of the frontmatter regex (with backtracking: a `\r`
not followed by `\n` fails). -/
def stripNl : Str → Option Str
  | [] => none
  | c :: t =>
    if c = '\r' then
      match t with
      | [] => none
      | d :: t2 => if d = '\n' then some t2 else none
    else if c = '\n' then some t
    else none

/-- `---\r?\n` at the current position. -/
def matchDashes (s : Str) : Option Str :=
  match s with
  | c1 :: rest1 =>
    if c1 = '-' then
      match rest1 with
      | c2 :: rest2 =>
        if c2 = '-' then
          match rest2 with
          | c3 :: t => if c3 = '-' then stripNl t else none
          | [] => none
        else none
      | [] => none
    else none
  | [] => none

/-- The closing delimiter `\r?\n---\r?\n` at the current position. -/
def matchDelim : Str → Option Str
  | [] => none
  | c :: t =>
    if c = '\r' then
      match t with
      | '\n' :: t2 => matchDashes t2
      | _ => none
    else if c = '\n' then matchDashes t
    else none

/-- The lazy capture of the frontmatter regex: the shortest prefix followed
by the closing delimiter, together with the text after the delimiter. -/
def scanDelim : Str → Option (Str × Str)
  | [] => none
  | c :: rest =>
    match matchDelim (c :: rest) with
    | some c2 => some ([], c2)
    | none => (scanDelim rest).map fun p => (c :: p.1, p.2)

/-- `interNl` of the emitted lines: the lazy capture the closing-delimiter
scan recovers (the block without its final newline). -/
def interNl : List Str → Str
  | [] => []
  | [l] => l
  | l :: ls => l ++ '\n' :: interNl ls

/-- The anchored frontmatter regex `(?s)^---\r?\n(.*?)\r?\n---\r?\n(.*)$`. -/
def mdShape (content : Str) : Option (Str × Str) :=
  match content with
  | '-' :: '-' :: '-' :: rest =>
    match stripNl rest with
    | some r => scanDelim r
    | none => none
  | _ => none

/-- `parse_md_file`: on a delimiter match the block parses to the field
mapping (degrading to the empty mapping on a parse failure) and the rest is
the trimmed body; otherwise the whole trimmed content is the body. -/
def parse_md_file (content : Str) : Fields × Str :=
  match mdShape content with
  | some (c1, c2) => ((yamlParse c1).getD [], trimStr c2)
  | none => ([], trimStr content)

/-! ## Basic map lemmas -/

theorem alGet_insert (m : Fields) (k : Str) (v : Value) :
    alGet (alInsert m k v) k = some v := by
  induction m with
  | nil => simp [alInsert, alGet]
  | cons kv rest ih =>
    obtain ⟨k2, v2⟩ := kv
    by_cases h : k2 = k
    · simp [alInsert, alGet, h]
    · simp [alInsert, alGet, h, ih]

theorem isEmpty_false_of_alContains {m : Fields} {k : Str}
    (h : alContains m k = true) : m.isEmpty = false := by
  cases m with
  | nil => simp [alContains, alGet] at h
  | cons kv rest => rfl

theorem getSection_obj_insert (fs ents : List (Str × Value)) (s n : Str) (e : Value) :
    getSectionEntry (.obj (alInsert fs s (.obj (alInsert ents n e)))) s n = some e := by
  simp [getSectionEntry, alGet_insert]

theorem getSection_setSection (config : Value) (s n : Str) (e : Value) :
    getSectionEntry (setSectionEntry config s n e) s n = some e := by
  cases config with
  | obj fs =>
    unfold setSectionEntry
    cases halg : alGet fs s with
    | none => simpa [halg] using getSection_obj_insert fs [] s n e
    | some v =>
      cases v <;> simpa [halg] using getSection_obj_insert fs _ s n e
  | null => simpa using getSection_obj_insert [] [] s n e
  | bool b => simpa using getSection_obj_insert [] [] s n e
  | num i => simpa using getSection_obj_insert [] [] s n e
  | str t => simpa using getSection_obj_insert [] [] s n e
  | arr xs => simpa using getSection_obj_insert [] [] s n e

/-! ## Claim C6 -/

/-- Claim C6: for a command name whose project-scope frontmatter file (under
the supplied working directory) and user-scope file both exist,
`get_command_scope` returns the Project scope and the project path; with only
the user file it returns User and the user path; with neither it returns no
scope and no path. -/
theorem c6_scope_resolution :
    (∀ (ex : Str → Bool) (name wd : Str),
      ex (get_project_command_path wd name) = true →
      ex (get_user_command_path name) = true →
      get_command_scope ex name (some wd)
        = (some .project, some (get_project_command_path wd name))) ∧
    (∀ (ex : Str → Bool) (name : Str) (owd : Option Str),
      (∀ wd, owd = some wd → ex (get_project_command_path wd name) = false) →
      ex (get_user_command_path name) = true →
      get_command_scope ex name owd
        = (some .user, some (get_user_command_path name))) ∧
    (∀ (ex : Str → Bool) (name : Str) (owd : Option Str),
      (∀ wd, owd = some wd → ex (get_project_command_path wd name) = false) →
      ex (get_user_command_path name) = false →
      get_command_scope ex name owd = (none, none)) := by
  refine ⟨?_, ?_, ?_⟩
  · intro ex name wd h1 _h2
    simp [get_command_scope, h1]
  · intro ex name owd h1 h2
    cases owd with
    | none => simp [get_command_scope, h2]
    | some wd => simp [get_command_scope, h1 wd rfl, h2]
  · intro ex name owd h1 h2
    cases owd with
    | none => simp [get_command_scope, h2]
    | some wd => simp [get_command_scope, h1 wd rfl, h2]

/-- Witness for C6 at a concrete filesystem. -/
theorem c6_scope_resolution_witness :
    get_command_scope
      (fun p => p = get_project_command_path (cs "/w") (cs "c")
        || p = get_user_command_path (cs "c"))
      (cs "c") (some (cs "/w"))
      = (some .project, some (get_project_command_path (cs "/w") (cs "c")))
    ∧ get_command_scope (fun p => p = get_user_command_path (cs "c")) (cs "c") none
      = (some .user, some (get_user_command_path (cs "c")))
    ∧ get_command_scope (fun _ => false) (cs "c") (some (cs "/w")) = (none, none) := by
  refine ⟨c6_scope_resolution.1 _ _ _ (by decide) (by decide), ?_, ?_⟩
  · exact c6_scope_resolution.2.1 _ _ none (by intro wd h; cases h) (by decide)
  · exact c6_scope_resolution.2.2 _ _ (some (cs "/w"))
      (by intro wd _; rfl) (by rfl)

/-! ## Claim C7 -/

theorem stripRun_inStr (s : Str) (rest : Str)
    (h1 : ¬ '"' ∈ s) (h2 : ¬ '\\' ∈ s) :
    stripRun (s ++ '"' :: rest) .inStr = s ++ '"' :: stripRun rest .code := by
  induction s with
  | nil => simp [stripRun]
  | cons c s ih =>
    simp only [List.mem_cons, not_or] at h1 h2
    have hc1 : ¬ (c = '"') := fun h => h1.1 h.symm
    have hc2 : ¬ (c = '\\') := fun h => h2.1 h.symm
    simp [stripRun, hc1, hc2, ih h1.2 h2.2]

/-- Claim C7: the structured-store read is total on absent or effectively
empty input; if the backing file does not exist it returns the empty mapping,
if the content is empty after comment stripping and trimming it returns the
empty mapping, malformed content yields a `ParseError` carrying the parser's
cause, and comment markers inside a quoted string are not stripped. -/
theorem c7_read_config_total :
    (∀ (content : Str) (parse : Str → Except Str Value),
       read_config false content parse = .ok (.obj [])) ∧
    (∀ (content : Str) (parse : Str → Except Str Value),
       trimStr (strip_json_comments content) = [] →
       read_config true content parse = .ok (.obj [])) ∧
    (∀ (content : Str) (parse : Str → Except Str Value) (msg : Str),
       trimStr (strip_json_comments content) ≠ [] →
       parse (trimStr (strip_json_comments content)) = .error msg →
       read_config true content parse = .error (.parseError msg)) ∧
    (∀ s : Str, ¬ '"' ∈ s → ¬ '\\' ∈ s →
       strip_json_comments ('"' :: s ++ ['"']) = '"' :: s ++ ['"']) := by
  refine ⟨?_, ?_, ?_, ?_⟩
  · intro content parse
    simp [read_config]
  · intro content parse h
    simp [read_config, h]
  · intro content parse msg h1 h2
    simp [read_config, h1, h2]
  · intro s h1 h2
    have := stripRun_inStr s [] h1 h2
    simp [strip_json_comments, stripRun] at this ⊢
    simpa [stripRun] using this

/-- Witness for C7 at concrete inputs. -/
theorem c7_read_config_total_witness :
    read_config false (cs "anything") (fun _ => .error (cs "boom")) = .ok (.obj [])
    ∧ read_config true (cs "// only a comment") (fun _ => .error (cs "boom")) = .ok (.obj [])
    ∧ read_config true (cs "bad") (fun _ => .error (cs "boom"))
        = .error (.parseError (cs "boom"))
    ∧ strip_json_comments ('"' :: cs "a//b" ++ ['"']) = '"' :: cs "a//b" ++ ['"'] := by
  refine ⟨c7_read_config_total.1 _ _, ?_, ?_, ?_⟩
  · exact c7_read_config_total.2.1 _ _ (by decide)
  · exact c7_read_config_total.2.2.1 _ _ _ (by decide) rfl
  · exact c7_read_config_total.2.2.2 _ (by decide) (by decide)

/-! ## Claim C8 -/

/-- Claim C8: for an entity name with no frontmatter file anywhere and no
structured entry, deletion is asymmetric by kind: deleting an agent succeeds
and inserts a `disable: true` record for the name into the structured agent
section, while deleting a command fails with `NotFound` and performs no
write. -/
theorem c8_delete_asymmetry :
    (∀ (config : Value) (name : Str),
       sectionContains config (cs "agent") name = false →
       delete_agent false config name
         = { writes := [.jsonWrite (setSectionEntry config (cs "agent") name
               (.obj [(cs "disable", .bool true)]))], err := none }
       ∧ getSectionEntry (setSectionEntry config (cs "agent") name
             (.obj [(cs "disable", .bool true)])) (cs "agent") name
           = some (.obj [(cs "disable", .bool true)])) ∧
    (∀ (owd : Option Str) (config : Value) (name : Str),
       sectionContains config (cs "command") name = false →
       delete_command owd false false config name
         = { writes := [], err := some .notFound }) := by
  constructor
  · intro config name h
    refine ⟨?_, getSection_setSection ..⟩
    cases config with
    | obj fs =>
      simp only [sectionContains] at h
      cases halg : alGet fs (cs "agent") with
      | none => simp [delete_agent, halg]
      | some v =>
        cases v <;> simp_all [delete_agent, halg]
    | null => simp [delete_agent]
    | bool b => simp [delete_agent]
    | num n => simp [delete_agent]
    | str s => simp [delete_agent]
    | arr xs => simp [delete_agent]
  · intro owd config name h
    have hw : (match owd with
        | some wd =>
          if false = true then [WriteEv.fileDelete (get_project_command_path wd name)] else []
        | none => ([] : List WriteEv)) = [] := by
      cases owd <;> simp
    have hd : (match owd with
        | some _ => false
        | none => false) = false := by
      cases owd <;> rfl
    cases config with
    | obj fs =>
      simp only [sectionContains] at h
      cases halg : alGet fs (cs "command") with
      | none => cases owd <;> simp [delete_command, halg]
      | some v =>
        cases v <;> cases owd <;> simp_all [delete_command, halg]
    | null => cases owd <;> simp [delete_command]
    | bool b => cases owd <;> simp [delete_command]
    | num n => cases owd <;> simp [delete_command]
    | str s => cases owd <;> simp [delete_command]
    | arr xs => cases owd <;> simp [delete_command]

/-- Witness for C8 at concrete inputs. -/
theorem c8_delete_asymmetry_witness :
    delete_agent false (.obj []) (cs "builtin-test")
      = { writes := [.jsonWrite (setSectionEntry (.obj []) (cs "agent") (cs "builtin-test")
            (.obj [(cs "disable", .bool true)]))], err := none }
    ∧ delete_command (some (cs "/w")) false false (.obj []) (cs "builtin-test")
      = { writes := [], err := some .notFound } :=
  ⟨(c8_delete_asymmetry.1 (.obj []) (cs "builtin-test") rfl).1,
   c8_delete_asymmetry.2 (some (cs "/w")) (.obj []) (cs "builtin-test") rfl⟩

/-! ## Claim C9 -/

/-- Claim C9: create fails with `AlreadyExists` — before performing any
write — when a frontmatter file for the name already exists (for commands,
checking the project-scope path when a working directory is supplied and the
user-scope path) or when the structured section already contains the name;
on failure nothing is written. -/
theorem c9_create_duplicate_checks :
    (∀ (mdExists : Bool) (config : Value) (name : Str) (cfg : Fields),
       mdExists = true ∨ sectionContains config (cs "agent") name = true →
       create_agent mdExists config name cfg
         = { writes := [], err := some .alreadyExists }) ∧
    (∀ (owd : Option Str) (pe ue : Bool) (config : Value) (name : Str)
       (cfg : Fields) (scope : Option CommandScope),
       (∃ wd, owd = some wd ∧ pe = true) ∨ ue = true
         ∨ sectionContains config (cs "command") name = true →
       create_command owd pe ue config name cfg scope
         = { writes := [], err := some .alreadyExists }) := by
  constructor
  · intro mdExists config name cfg h
    rcases h with h | h
    · simp [create_agent, h]
    · cases mdExists <;> simp [create_agent, h]
  · intro owd pe ue config name cfg scope h
    rcases h with ⟨wd, hwd, hpe⟩ | h | h
    · subst hwd; simp [create_command, hpe]
    · subst h
      rcases owd with _ | wd
      · simp [create_command]
      · cases pe <;> simp [create_command]
    · rcases owd with _ | wd
      · cases ue <;> simp [create_command, h]
      · cases pe <;> cases ue <;> simp [create_command, h]

/-- Witness for C9 at concrete inputs. -/
theorem c9_create_duplicate_checks_witness :
    create_agent true (.obj []) (cs "a") []
      = { writes := [], err := some .alreadyExists }
    ∧ create_command (some (cs "/w")) true false (.obj []) (cs "c") [] none
      = { writes := [], err := some .alreadyExists }
    ∧ create_agent false
        (.obj [(cs "agent", .obj [(cs "a", .obj [])])]) (cs "a") []
      = { writes := [], err := some .alreadyExists } :=
  ⟨c9_create_duplicate_checks.1 true (.obj []) (cs "a") [] (Or.inl rfl),
   c9_create_duplicate_checks.2 (some (cs "/w")) true false (.obj []) (cs "c") [] none
     (Or.inl ⟨cs "/w", rfl, rfl⟩),
   c9_create_duplicate_checks.1 false
     (.obj [(cs "agent", .obj [(cs "a", .obj [])])]) (cs "a") [] (Or.inr (by decide))⟩

/-! ## Claim C10 -/

/-- Claim C10: a non-null, non-string prompt (agent) or template (command)
value is not passed through opaquely: it is coerced to the empty string
before being stored as the body or as the structured field value, without
signalling an error — shown for an agent update with a frontmatter file, an
agent update without one, agent creation, and a command update. -/
theorem c10_nonstring_body_coerced (v : Value)
    (hnull : v.isNull = false) (hstr : v.asStr = none) :
    (∀ (fm : Fields) (body name : Str),
       update_agent true fm body (.obj []) name [(cs "prompt", v)]
         = { writes := [.mdWrite (agent_md_path name) fm []], err := none }) ∧
    (∀ name : Str,
       update_agent false [] [] (.obj []) name [(cs "prompt", v)]
         = { writes := [.jsonWrite (setSectionEntry (.obj []) (cs "agent") name
             (.obj [(cs "prompt", .str [])]))], err := none }) ∧
    (∀ name : Str,
       create_agent false (.obj []) name [(cs "prompt", v)]
         = { writes := [.mdWrite (agent_md_path name) [] []], err := none }) ∧
    (∀ (mdPath : Str) (name : Str),
       update_command false mdPath [] [] (.obj []) name [(cs "template", v)]
         = { writes := [.mdWrite (get_user_command_path name) [] []], err := none }) := by
  refine ⟨?_, ?_, ?_, ?_⟩
  · intro fm body name
    simp [update_agent, agent_step, hnull, hstr, getSectionFields, getSectionEntry, alGet]
  · intro name
    simp [update_agent, agent_step, hnull, hstr, getSectionFields, getSectionEntry, alGet,
      alInsert, setSectionEntry]
  · intro name
    simp [create_agent, sectionContains, alGet, alRemove, hstr]
  · intro mdPath name
    simp [update_command, command_step, hnull, hstr, getSectionFields, getSectionEntry, alGet]

/-- Witness for C10 at a numeric value. -/
theorem c10_nonstring_body_coerced_witness :
    update_agent true [(cs "temperature", .num 1)] (cs "old") (.obj []) (cs "a")
        [(cs "prompt", .num 5)]
      = { writes := [.mdWrite (agent_md_path (cs "a")) [(cs "temperature", .num 1)] []],
          err := none }
    ∧ update_agent false [] [] (.obj []) (cs "a") [(cs "prompt", .num 5)]
      = { writes := [.jsonWrite (setSectionEntry (.obj []) (cs "agent") (cs "a")
          (.obj [(cs "prompt", .str [])]))], err := none }
    ∧ create_agent false (.obj []) (cs "a") [(cs "prompt", .num 5)]
      = { writes := [.mdWrite (agent_md_path (cs "a")) [] []], err := none }
    ∧ update_command false (cs "mp") [] [] (.obj []) (cs "c") [(cs "template", .num 5)]
      = { writes := [.mdWrite (get_user_command_path (cs "c")) [] []], err := none } :=
  ⟨(c10_nonstring_body_coerced (.num 5) rfl rfl).1 _ _ _,
   (c10_nonstring_body_coerced (.num 5) rfl rfl).2.1 _,
   (c10_nonstring_body_coerced (.num 5) rfl rfl).2.2.1 _,
   (c10_nonstring_body_coerced (.num 5) rfl rfl).2.2.2 _ _⟩

/-! ## Claim C1 -/

/-- Counterexample to C1: a command whose structured record defines `model`
and which has no frontmatter file.  Updating `model` does not update the
structured store (the claim's "else if currently present in the structured
fields-object, update it there"): the only write is a newly created
user-scope frontmatter file carrying the new value, and no structured write
occurs. -/
theorem c1_ownership_counterexample :
    update_command false (cs "mdpath") [] []
      (.obj [(cs "command", .obj [(cs "c", .obj [(cs "model", .str (cs "a"))])])])
      (cs "c") [(cs "model", .str (cs "b"))]
    = { writes := [.mdWrite (get_user_command_path (cs "c"))
          [(cs "model", .str (cs "b"))] []],
        err := none } := rfl

/-- Claim C1 (amended): for agents the ownership rule holds as stated,
regardless of whether a frontmatter file exists: a field present in the
frontmatter mapping is updated there, else a field present in the structured
fields-object is updated there.  For commands the rule holds only when a
frontmatter file exists; when none exists, every ordinary-field update is
written into a newly created user-scope frontmatter document and the
structured store is untouched. -/
theorem c1_ownership_amended :
    (∀ (fm : Fields) (body : Str) (config : Value) (name f : Str) (v : Value),
       v.isNull = false → f ≠ cs "prompt" → alContains fm f = true →
       update_agent true fm body config name [(f, v)]
         = { writes := [.mdWrite (agent_md_path name) (alInsert fm f v) body],
             err := none }) ∧
    (∀ (mdE : Bool) (fm : Fields) (body : Str) (config : Value) (name f : Str) (v : Value),
       v.isNull = false → f ≠ cs "prompt" →
       alContains (if mdE then fm else []) f = false →
       alContains (getSectionFields config (cs "agent") name) f = true →
       update_agent mdE fm body config name [(f, v)]
         = { writes := [.jsonWrite (setSectionEntry config (cs "agent") name
               (.obj (alInsert (getSectionFields config (cs "agent") name) f v)))],
             err := none }) ∧
    (∀ (mdPath : Str) (fm : Fields) (body : Str) (config : Value) (name f : Str) (v : Value),
       v.isNull = false → f ≠ cs "template" → alContains fm f = true →
       update_command true mdPath fm body config name [(f, v)]
         = { writes := [.mdWrite mdPath (alInsert fm f v) body], err := none }) ∧
    (∀ (mdPath : Str) (fm : Fields) (body : Str) (config : Value) (name f : Str) (v : Value),
       v.isNull = false → f ≠ cs "template" → alContains fm f = false →
       alContains (getSectionFields config (cs "command") name) f = true →
       update_command true mdPath fm body config name [(f, v)]
         = { writes := [.jsonWrite (setSectionEntry config (cs "command") name
               (.obj (alInsert (getSectionFields config (cs "command") name) f v)))],
             err := none }) ∧
    (∀ (mdPath : Str) (fm : Fields) (body : Str) (config : Value) (name f : Str) (v : Value),
       v.isNull = false → f ≠ cs "template" →
       update_command false mdPath fm body config name [(f, v)]
         = { writes := [.mdWrite (get_user_command_path name) [(f, v)] []],
             err := none }) := by
  refine ⟨?_, ?_, ?_, ?_, ?_⟩
  · intro fm body config name f v hnull hf hmd
    simp [update_agent, agent_step, hnull, hf, hmd]
  · intro mdE fm body config name f v hnull hf hmd hj
    have hne := isEmpty_false_of_alContains hj
    cases mdE
    · simp [update_agent, agent_step, hnull, hf, hj, hne, alContains, alGet]
    · simp only [if_true] at hmd
      simp [update_agent, agent_step, hnull, hf, hmd, hj, hne]
  · intro mdPath fm body config name f v hnull hf hmd
    simp [update_command, command_step, hnull, hf, hmd]
  · intro mdPath fm body config name f v hnull hf hmd hj
    have hne := isEmpty_false_of_alContains hj
    simp [update_command, command_step, hnull, hf, hmd, hj, hne]
  · intro mdPath fm body config name f v hnull hf
    simp [update_command, command_step, hnull, hf, alContains, alGet, alInsert]

/-- Witness for the amended C1. -/
theorem c1_ownership_amended_witness :
    update_agent true [(cs "model", .str (cs "m1"))] (cs "B")
        (.obj []) (cs "a") [(cs "model", .str (cs "m2"))]
      = { writes := [.mdWrite (agent_md_path (cs "a"))
            (alInsert [(cs "model", .str (cs "m1"))] (cs "model") (.str (cs "m2"))) (cs "B")],
          err := none }
    ∧ update_agent false [] []
        (.obj [(cs "agent", .obj [(cs "a", .obj [(cs "model", .str (cs "m1"))])])])
        (cs "a") [(cs "model", .str (cs "m2"))]
      = { writes := [.jsonWrite (setSectionEntry
            (.obj [(cs "agent", .obj [(cs "a", .obj [(cs "model", .str (cs "m1"))])])])
            (cs "agent") (cs "a")
            (.obj (alInsert
              (getSectionFields
                (.obj [(cs "agent", .obj [(cs "a", .obj [(cs "model", .str (cs "m1"))])])])
                (cs "agent") (cs "a"))
              (cs "model") (.str (cs "m2")))))],
          err := none }
    ∧ update_command true (cs "mp") [(cs "model", .str (cs "m1"))] (cs "B")
        (.obj []) (cs "c") [(cs "model", .str (cs "m2"))]
      = { writes := [.mdWrite (cs "mp")
            (alInsert [(cs "model", .str (cs "m1"))] (cs "model") (.str (cs "m2"))) (cs "B")],
          err := none } :=
  ⟨c1_ownership_amended.1 _ _ (.obj []) _ _ _ rfl (by decide) (by decide),
   c1_ownership_amended.2.1 false [] [] _ _ _ _ rfl (by decide) (by decide) (by decide),
   c1_ownership_amended.2.2.1 _ _ _ (.obj []) _ _ _ rfl (by decide) (by decide)⟩

/-! ## Claim C2 -/

/-- Counterexample to C2: a command with both an existing frontmatter file
and a non-empty structured fields-object.  A genuinely new field is written
into the frontmatter document, not the structured store as the claim's
both-stores-active rule requires. -/
theorem c2_new_field_counterexample :
    update_command true (cs "mdpath") [(cs "x", .bool true)] (cs "B")
      (.obj [(cs "command", .obj [(cs "c", .obj [(cs "y", .bool true)])])])
      (cs "c") [(cs "new", .num 1)]
    = { writes := [.mdWrite (cs "mdpath")
          [(cs "x", .bool true), (cs "new", .num 1)] (cs "B")],
        err := none } := rfl

/-- Claim C2 (amended): for agents the stated rule holds: a genuinely new
field goes to the structured store when the frontmatter document exists and
the structured fields-object is non-empty, to the frontmatter when only the
frontmatter document exists, and to the structured store otherwise.  For
commands a genuinely new field always goes to the frontmatter document
(the existing one, or a newly created user-scope one). -/
theorem c2_new_field_amended :
    (∀ (fm : Fields) (body : Str) (config : Value) (name f : Str) (v : Value),
       v.isNull = false → f ≠ cs "prompt" → alContains fm f = false →
       alContains (getSectionFields config (cs "agent") name) f = false →
       (getSectionFields config (cs "agent") name).isEmpty = false →
       update_agent true fm body config name [(f, v)]
         = { writes := [.jsonWrite (setSectionEntry config (cs "agent") name
               (.obj (alInsert (getSectionFields config (cs "agent") name) f v)))],
             err := none }) ∧
    (∀ (fm : Fields) (body : Str) (config : Value) (name f : Str) (v : Value),
       v.isNull = false → f ≠ cs "prompt" → alContains fm f = false →
       getSectionFields config (cs "agent") name = [] →
       update_agent true fm body config name [(f, v)]
         = { writes := [.mdWrite (agent_md_path name) (alInsert fm f v) body],
             err := none }) ∧
    (∀ (fm : Fields) (body : Str) (config : Value) (name f : Str) (v : Value),
       v.isNull = false → f ≠ cs "prompt" →
       alContains (getSectionFields config (cs "agent") name) f = false →
       update_agent false fm body config name [(f, v)]
         = { writes := [.jsonWrite (setSectionEntry config (cs "agent") name
               (.obj (alInsert (getSectionFields config (cs "agent") name) f v)))],
             err := none }) ∧
    (∀ (mdPath : Str) (fm : Fields) (body : Str) (config : Value) (name f : Str) (v : Value),
       v.isNull = false → f ≠ cs "template" → alContains fm f = false →
       alContains (getSectionFields config (cs "command") name) f = false →
       update_command true mdPath fm body config name [(f, v)]
         = { writes := [.mdWrite mdPath (alInsert fm f v) body], err := none }) ∧
    (∀ (mdPath : Str) (fm : Fields) (body : Str) (config : Value) (name f : Str) (v : Value),
       v.isNull = false → f ≠ cs "template" →
       update_command false mdPath fm body config name [(f, v)]
         = { writes := [.mdWrite (get_user_command_path name) [(f, v)] []],
             err := none }) := by
  refine ⟨?_, ?_, ?_, ?_, ?_⟩
  · intro fm body config name f v hnull hf hmd hj hne
    simp [update_agent, agent_step, hnull, hf, hmd, hj, hne]
  · intro fm body config name f v hnull hf hmd hj
    simp [update_agent, agent_step, hnull, hf, hmd, hj, alContains, alGet]
  · intro fm body config name f v hnull hf hj
    simp [update_agent, agent_step, hnull, hf, hj, alContains, alGet]
  · intro mdPath fm body config name f v hnull hf hmd hj
    simp [update_command, command_step, hnull, hf, hmd, hj]
  · intro mdPath fm body config name f v hnull hf
    simp [update_command, command_step, hnull, hf, alContains, alGet, alInsert]

/-- Witness for the amended C2. -/
theorem c2_new_field_amended_witness :
    update_agent true [(cs "x", .bool true)] (cs "B")
        (.obj [(cs "agent", .obj [(cs "a", .obj [(cs "y", .bool true)])])])
        (cs "a") [(cs "new", .num 1)]
      = { writes := [.jsonWrite (setSectionEntry
            (.obj [(cs "agent", .obj [(cs "a", .obj [(cs "y", .bool true)])])])
            (cs "agent") (cs "a")
            (.obj (alInsert
              (getSectionFields
                (.obj [(cs "agent", .obj [(cs "a", .obj [(cs "y", .bool true)])])])
                (cs "agent") (cs "a"))
              (cs "new") (.num 1))))],
          err := none }
    ∧ update_agent true [(cs "x", .bool true)] (cs "B") (.obj []) (cs "a") [(cs "new", .num 1)]
      = { writes := [.mdWrite (agent_md_path (cs "a"))
            (alInsert [(cs "x", .bool true)] (cs "new") (.num 1)) (cs "B")],
          err := none }
    ∧ update_agent false [] [] (.obj []) (cs "a") [(cs "new", .num 1)]
      = { writes := [.jsonWrite (setSectionEntry (.obj []) (cs "agent") (cs "a")
            (.obj (alInsert (getSectionFields (.obj []) (cs "agent") (cs "a"))
              (cs "new") (.num 1))))],
          err := none } :=
  ⟨c2_new_field_amended.1 _ _ _ _ _ _ rfl (by decide) (by decide) (by decide) (by decide),
   c2_new_field_amended.2.1 _ _ (.obj []) _ _ _ rfl (by decide) (by decide) rfl,
   c2_new_field_amended.2.2.1 [] [] (.obj []) _ _ _ rfl (by decide) (by decide)⟩

/-! ## Claim C3 -/

/-- Counterexample to C3: a command with no frontmatter file whose structured
`template` holds the indirection reference `\x7bfile:./t.txt\x7d`.  Updating
`template` does not write the referenced file (the claim's behaviour for
"prompt for agents, template for commands"): the engine creates a user-scope
frontmatter file whose body is the new content, performing no prompt-file
write. -/
theorem c3_indirection_counterexample :
    update_command false (cs "mdpath") [] []
      (.obj [(cs "command", .obj [(cs "c",
        .obj [(cs "template", .str (cs "\x7bfile:./t.txt\x7d"))])])])
      (cs "c") [(cs "template", .str (cs "new text"))]
    = { writes := [.mdWrite (get_user_command_path (cs "c")) [] (cs "new text")],
        err := none } := rfl

/-- Claim C3 (amended): for agents the claim holds as stated: a prompt update
on an agent with no frontmatter file whose structured `prompt` is a resolvable
indirection reference writes the new literal content to the referenced file,
leaves the structured record untouched and queues no structured write.  For
commands the indirection path is never taken: the new template content becomes
the body of a newly created user-scope frontmatter document, and neither the
referenced file nor the structured store is written. -/
theorem c3_indirection_amended :
    (∀ (fm : Fields) (body : Str) (config : Value) (name s ref p : Str),
       alGet (getSectionFields config (cs "agent") name) (cs "prompt")
         = some (.str ref) →
       is_prompt_file_reference ref = true →
       resolve_prompt_file_path ref = some p →
       update_agent false fm body config name [(cs "prompt", .str s)]
         = { writes := [.promptWrite p s], err := none }) ∧
    (∀ (mdPath : Str) (fm : Fields) (body : Str) (config : Value) (name s : Str),
       update_command false mdPath fm body config name [(cs "template", .str s)]
         = { writes := [.mdWrite (get_user_command_path name) [] s], err := none }) := by
  constructor
  · intro fm body config name s ref p hget href hres
    simp [update_agent, agent_step, hget, href, hres, Value.asStr, Value.isNull]
  · intro mdPath fm body config name s
    simp [update_command, command_step, Value.asStr, Value.isNull]

/-- Witness for the amended C3. -/
theorem c3_indirection_amended_witness :
    update_agent false [] []
      (.obj [(cs "agent", .obj [(cs "a",
        .obj [(cs "prompt", .str (cs "\x7bfile:./prompts/a.txt\x7d"))])])])
      (cs "a") [(cs "prompt", .str (cs "new text"))]
    = { writes := [.promptWrite (path_join get_config_dir (cs "prompts/a.txt"))
          (cs "new text")], err := none } :=
  c3_indirection_amended.1 [] []
    (.obj [(cs "agent", .obj [(cs "a",
      .obj [(cs "prompt", .str (cs "\x7bfile:./prompts/a.txt\x7d"))])])])
    (cs "a") (cs "new text") (cs "\x7bfile:./prompts/a.txt\x7d")
    (path_join get_config_dir (cs "prompts/a.txt")) rfl (by decide) (by decide)

/-! ## Claim C4 -/

theorem trimStr_brace (mid : Str) :
    trimStr ('\x7b' :: (mid ++ ['\x7d'])) = '\x7b' :: (mid ++ ['\x7d']) := by
  unfold trimStr
  have h1 : List.dropWhile isWs ('\x7b' :: (mid ++ ['\x7d']))
      = '\x7b' :: (mid ++ ['\x7d']) := by
    rw [List.dropWhile_cons]
    simp [isWs]
  rw [h1]
  have h2 : ('\x7b' :: (mid ++ ['\x7d'])).reverse
      = '\x7d' :: (mid.reverse ++ ['\x7b']) := by
    simp
  rw [h2]
  have h3 : List.dropWhile isWs ('\x7d' :: (mid.reverse ++ ['\x7b']))
      = '\x7d' :: (mid.reverse ++ ['\x7b']) := by
    rw [List.dropWhile_cons]
    simp [isWs]
  rw [h3, ← h2, List.reverse_reverse]

/-- Claim C4: a body-field update that takes the indirection path with a
reference whose resolution fails aborts the whole update with a fatal
`InvalidReferenceError` (and nothing is written); and resolution trims the
captured target, an empty target after trimming yields no path, a `./` target
and any other relative target are joined under the configuration root, and an
absolute target is used as-is. -/
theorem c4_invalid_reference :
    (∀ (fm : Fields) (body : Str) (config : Value) (name s ref : Str),
       alGet (getSectionFields config (cs "agent") name) (cs "prompt")
         = some (.str ref) →
       is_prompt_file_reference ref = true →
       resolve_prompt_file_path ref = none →
       update_agent false fm body config name [(cs "prompt", .str s)]
         = { writes := [], err := some .invalidRef }) ∧
    (∀ t : Str, t ≠ [] → t.contains '\n' = false →
       resolve_prompt_file_path ('\x7b' :: 'f' :: 'i' :: 'l' :: 'e' :: ':' :: (t ++ ['\x7d']))
         = (if trimStr t = [] then none
            else if (trimStr t).take 2 = ['.', '/'] then
              some (path_join get_config_dir ((trimStr t).drop 2))
            else if is_absolute_path (trimStr t) then some (trimStr t)
            else some (path_join get_config_dir (trimStr t)))) := by
  constructor
  · intro fm body config name s ref hget href hres
    simp [update_agent, agent_step, hget, href, hres, Value.asStr, Value.isNull]
  · intro t ht hnl
    have hb : ('\x7b' :: 'f' :: 'i' :: 'l' :: 'e' :: ':' :: (t ++ ['\x7d']))
        = '\x7b' :: (('f' :: 'i' :: 'l' :: 'e' :: ':' :: t) ++ ['\x7d']) := by simp
    rw [resolve_prompt_file_path, hb, trimStr_brace]
    have hmem : ¬ '\n' ∈ t := by simpa using hnl
    simp [matchRefCore, ht, hmem]

/-- Witness for C4: an unresolvable reference (whitespace-only target) aborts
with the fatal error, and the three resolution shapes at concrete targets. -/
theorem c4_invalid_reference_witness :
    update_agent false [] []
      (.obj [(cs "agent", .obj [(cs "a",
        .obj [(cs "prompt", .str (cs "\x7bfile:  \x7d"))])])])
      (cs "a") [(cs "prompt", .str (cs "new"))]
      = { writes := [], err := some .invalidRef }
    ∧ resolve_prompt_file_path ('\x7b' :: 'f' :: 'i' :: 'l' :: 'e' :: ':' :: (cs "./p.txt" ++ ['\x7d']))
      = (if trimStr (cs "./p.txt") = [] then none
         else if (trimStr (cs "./p.txt")).take 2 = ['.', '/'] then
           some (path_join get_config_dir ((trimStr (cs "./p.txt")).drop 2))
         else if is_absolute_path (trimStr (cs "./p.txt")) then some (trimStr (cs "./p.txt"))
         else some (path_join get_config_dir (trimStr (cs "./p.txt")))) :=
  ⟨c4_invalid_reference.1 [] []
    (.obj [(cs "agent", .obj [(cs "a",
      .obj [(cs "prompt", .str (cs "\x7bfile:  \x7d"))])])])
    (cs "a") (cs "new") (cs "\x7bfile:  \x7d") rfl (by decide) (by decide),
   c4_invalid_reference.2 (cs "./p.txt") (by decide) (by decide)⟩

/-! ## Claim C5: escape-codec lemmas -/

theorem unescSemi_escChar (c : Char) (t : Str) :
    unescSemi (escChar c ++ t) = c :: unescSemi t := by
  unfold escChar
  by_cases h1 : c = '\\'
  · subst h1; simp [unescSemi]
  · by_cases h2 : c = '\n'
    · subst h2; simp [unescSemi]
    · by_cases h3 : c = '\r'
      · subst h3; simp [unescSemi]
      · by_cases h4 : c = ';'
        · subst h4; simp [unescSemi]
        · by_cases h5 : c = ':'
          · subst h5; simp [unescSemi]
          · simp only [h1, h2, h3, h4, h5, if_false, List.singleton_append]
            rw [unescSemi.eq_def]
            simp [h1]

theorem escChar_mem (c x : Char) (hx : x ∈ escChar c) :
    x ≠ '\n' ∧ x ≠ '\r' ∧ x ≠ ';' ∧ x ≠ ':' := by
  unfold escChar at hx
  by_cases h1 : c = '\\'
  · simp [h1] at hx; subst hx; decide
  · by_cases h2 : c = '\n'
    · simp [h1, h2] at hx
      rcases hx with h | h <;> (subst h; decide)
    · by_cases h3 : c = '\r'
      · simp [h1, h2, h3] at hx
        rcases hx with h | h <;> (subst h; decide)
      · by_cases h4 : c = ';'
        · simp [h1, h2, h3, h4] at hx
          rcases hx with h | h <;> (subst h; decide)
        · by_cases h5 : c = ':'
          · simp [h1, h2, h3, h4, h5] at hx
            rcases hx with h | h <;> (subst h; decide)
          · simp [h1, h2, h3, h4, h5] at hx
            subst hx
            exact ⟨h2, h3, h4, h5⟩

theorem escSemi_mem (s : Str) (x : Char) (hx : x ∈ escSemi s) :
    x ≠ '\n' ∧ x ≠ '\r' ∧ x ≠ ';' ∧ x ≠ ':' := by
  unfold escSemi at hx
  rw [List.mem_flatMap] at hx
  obtain ⟨c, _, hc⟩ := hx
  exact escChar_mem c x hc

theorem unescSemi_escSemi_append (s t : Str) :
    unescSemi (escSemi s ++ t) = s ++ unescSemi t := by
  induction s with
  | nil => simp [escSemi]
  | cons c s ih =>
    have h : escSemi (c :: s) = escChar c ++ escSemi s := by
      simp [escSemi]
    rw [h, List.append_assoc, unescSemi_escChar, ih]
    rfl

theorem unescSemi_escSemi (s : Str) : unescSemi (escSemi s) = s := by
  have := unescSemi_escSemi_append s []
  simpa [unescSemi] using this

theorem takeSemi_escaped (a r : Str) (h : ¬ ';' ∈ a) :
    takeSemi (a ++ ';' :: r) = some (a, r) := by
  induction a with
  | nil => simp [takeSemi]
  | cons c a ih =>
    simp only [List.mem_cons, not_or] at h
    have hc : ¬ (c = ';') := fun hh => h.1 hh.symm
    simp [takeSemi, hc, ih h.2]

theorem splitColon_escaped (a r : Str) (h : ¬ ':' ∈ a) :
    splitColon (a ++ ':' :: r) = some (a, r) := by
  induction a with
  | nil => simp [splitColon]
  | cons c a ih =>
    simp only [List.mem_cons, not_or] at h
    have hc : ¬ (c = ':') := fun hh => h.1 hh.symm
    simp [splitColon, hc, ih h.2]

/-! ## Claim C5: decimal-digit lemmas -/

theorem natDigsF_irrel (n : Nat) : ∀ f g, n < f → n < g → natDigsF f n = natDigsF g n := by
  induction n using Nat.strong_induction_on with
  | _ n ih =>
    intro f g hf hg
    match f, g with
    | f' + 1, g' + 1 =>
      by_cases h : n < 10
      · simp [natDigsF, h]
      · have h1 : n / 10 < n := Nat.div_lt_self (by omega) (by omega)
        simp only [natDigsF, h, if_false]
        rw [ih (n / 10) h1 f' g' (by omega) (by omega)]

theorem natDigs_unfold (n : Nat) :
    natDigs n = if n < 10 then [digitChar n]
                else natDigs (n / 10) ++ [digitChar (n % 10)] := by
  by_cases h : n < 10
  · show natDigsF (n + 1) n = _
    simp [natDigsF, h]
  · have h1 : n / 10 < n := Nat.div_lt_self (by omega) (by omega)
    show natDigsF (n + 1) n = _
    simp only [natDigsF, h, if_false]
    rw [natDigsF_irrel (n / 10) n (n / 10 + 1) (by omega) (by omega)]
    rfl

theorem charDigit_digitChar (d : Nat) (h : d < 10) : charDigit (digitChar d) = some d := by
  interval_cases d <;> rfl

theorem digitChar_ne (d : Nat) (h : d < 10) :
    digitChar d ≠ '-' ∧ digitChar d ≠ '\n' ∧ digitChar d ≠ '\r' ∧ digitChar d ≠ ';'
      ∧ digitChar d ≠ ':' := by
  interval_cases d <;> decide

theorem natDigs_ne_nil (n : Nat) : natDigs n ≠ [] := by
  rw [natDigs_unfold]
  by_cases h : n < 10 <;> simp [h]

theorem natDigs_mem (n : Nat) (c : Char) (hc : c ∈ natDigs n) :
    ∃ d, d < 10 ∧ c = digitChar d := by
  induction n using Nat.strong_induction_on with
  | _ n ih =>
    rw [natDigs_unfold] at hc
    by_cases h : n < 10
    · simp [h] at hc
      exact ⟨n, h, hc⟩
    · simp only [h, if_false, List.mem_append, List.mem_singleton] at hc
      rcases hc with hc | hc
      · exact ih (n / 10) (Nat.div_lt_self (by omega) (by omega)) hc
      · exact ⟨n % 10, by omega, hc⟩

theorem digsGo_natDigs (n : Nat) : ∀ (acc : Nat) (r : Str),
    digsGo acc (natDigs n ++ r) = digsGo (acc * 10 ^ (natDigs n).length + n) r := by
  induction n using Nat.strong_induction_on with
  | _ n ih =>
    intro acc r
    rw [natDigs_unfold]
    by_cases h : n < 10
    · simp only [h, if_true, List.singleton_append, digsGo, charDigit_digitChar n h,
        List.length_singleton]
      congr 1
      ring
    · have h1 : n / 10 < n := Nat.div_lt_self (by omega) (by omega)
      simp only [h, if_false, List.append_assoc, List.singleton_append]
      rw [ih (n / 10) h1 acc (digitChar (n % 10) :: r)]
      simp only [digsGo, charDigit_digitChar (n % 10) (by omega), List.length_append,
        List.length_singleton]
      congr 1
      have hmod := Nat.div_add_mod n 10
      have hpow : acc * 10 ^ ((natDigs (n / 10)).length + 1)
          = 10 * (acc * 10 ^ (natDigs (n / 10)).length) := by ring
      omega

theorem natDigs_head (n : Nat) : ∃ d t, d < 10 ∧ natDigs n = digitChar d :: t := by
  rw [natDigs_unfold]
  by_cases h10 : n < 10
  · exact ⟨n, [], h10, by simp [h10]⟩
  · have hne := natDigs_ne_nil (n / 10)
    cases hh : natDigs (n / 10) with
    | nil => exact absurd hh hne
    | cons c t =>
      obtain ⟨d, hd, hc⟩ := natDigs_mem (n / 10) c (by rw [hh]; simp)
      exact ⟨d, t ++ [digitChar (n % 10)], hd, by simp [h10, hh, hc]⟩

theorem decIntSemi_encInt (i : Int) (r : Str) :
    decIntSemi (encInt i ++ r) = some (i, r) := by
  by_cases h : i < 0
  · have heq : encInt i ++ r = '-' :: (natDigs i.natAbs ++ ';' :: r) := by
      simp [encInt, h]
    rw [heq]
    simp only [decIntSemi, if_pos rfl]
    rw [digsGo_natDigs]
    simp only [Nat.zero_mul, Nat.zero_add]
    have hgo : digsGo i.natAbs (';' :: r) = (i.natAbs, ';' :: r) := rfl
    rw [hgo]
    show some (-(i.natAbs : Int), r) = some (i, r)
    have hi : -(i.natAbs : Int) = i := by omega
    rw [hi]
  · obtain ⟨d, t, hd, hdt⟩ := natDigs_head i.toNat
    have heq : encInt i ++ r = digitChar d :: (t ++ ';' :: r) := by
      simp [encInt, h, hdt]
    rw [heq]
    simp only [decIntSemi, (digitChar_ne d hd).1, if_false]
    rw [← List.cons_append, ← hdt, digsGo_natDigs]
    simp only [Nat.zero_mul, Nat.zero_add]
    have hgo : digsGo i.toNat (';' :: r) = (i.toNat, ';' :: r) := rfl
    rw [hgo]
    show some ((i.toNat : Int), r) = some (i, r)
    have hi : (i.toNat : Int) = i := by omega
    rw [hi]

/-! ## Claim C5: encoder/decoder inverse -/

theorem natDigs_not_mem (n : Nat) : ¬ '\n' ∈ natDigs n ∧ ¬ '\r' ∈ natDigs n := by
  constructor <;> intro hc
  · obtain ⟨d, hd, hcd⟩ := natDigs_mem n _ hc
    exact (digitChar_ne d hd).2.1 hcd.symm
  · obtain ⟨d, hd, hcd⟩ := natDigs_mem n _ hc
    exact (digitChar_ne d hd).2.2.1 hcd.symm

theorem encInt_not_mem (i : Int) : ¬ '\n' ∈ encInt i ∧ ¬ '\r' ∈ encInt i := by
  unfold encInt
  by_cases h : i < 0 <;>
    simp [h, (natDigs_not_mem _).1, (natDigs_not_mem _).2]

theorem vdepth_le_vdepthList (x : Value) (xs : List Value) (h : x ∈ xs) :
    vdepth x ≤ vdepthList xs := by
  induction xs with
  | nil => cases h
  | cons a as ih =>
    rw [vdepthList]
    rcases List.mem_cons.mp h with h | h
    · subst h; exact le_max_left _ _
    · exact le_trans (ih h) (le_max_right _ _)

theorem vdepth_le_vdepthObj (kv : Str × Value) (fs : List (Str × Value)) (h : kv ∈ fs) :
    vdepth kv.2 ≤ vdepthObj fs := by
  induction fs with
  | nil => cases h
  | cons a as ih =>
    rw [vdepthObj]
    rcases List.mem_cons.mp h with h | h
    · subst h; exact le_max_left _ _
    · exact le_trans (ih h) (le_max_right _ _)

theorem escSemi_not_nl (s : Str) : ¬ '\n' ∈ escSemi s :=
  fun hc => (escSemi_mem s _ hc).1 rfl

theorem escSemi_not_cr (s : Str) : ¬ '\r' ∈ escSemi s :=
  fun hc => (escSemi_mem s _ hc).2.1 rfl

theorem escSemi_not_semi (s : Str) : ¬ ';' ∈ escSemi s :=
  fun hc => (escSemi_mem s _ hc).2.2.1 rfl

theorem escSemi_not_colon (s : Str) : ¬ ':' ∈ escSemi s :=
  fun hc => (escSemi_mem s _ hc).2.2.2 rfl

mutual

theorem encV_good : (v : Value) →
    (¬ '\n' ∈ encV v) ∧ (¬ '\r' ∈ encV v) ∧ vdepth v < (encV v).length
  | .null => by simp [encV, vdepth]
  | .bool b => by cases b <;> simp [encV, vdepth]
  | .num i => by
    refine ⟨?_, ?_, ?_⟩
    · simp [encV, (encInt_not_mem i).1]
    · simp [encV, (encInt_not_mem i).2]
    · simp [encV, vdepth]
  | .str s => by
    refine ⟨?_, ?_, ?_⟩
    · simp [encV, escSemi_not_nl s]
    · simp [encV, escSemi_not_cr s]
    · simp [encV, vdepth]
  | .arr xs => by
    have h := encVList_good xs
    refine ⟨?_, ?_, ?_⟩
    · simp [encV, (natDigs_not_mem xs.length).1, h.1]
    · simp [encV, (natDigs_not_mem xs.length).2, h.2.1]
    · have h2 := h.2.2
      simp only [encV, vdepth, List.length_cons, List.length_append]
      omega
  | .obj fs => by
    have h := encVObj_good fs
    refine ⟨?_, ?_, ?_⟩
    · simp [encV, (natDigs_not_mem fs.length).1, h.1]
    · simp [encV, (natDigs_not_mem fs.length).2, h.2.1]
    · have h2 := h.2.2
      simp only [encV, vdepth, List.length_cons, List.length_append]
      omega

theorem encVList_good : (xs : List Value) →
    (¬ '\n' ∈ encVList xs) ∧ (¬ '\r' ∈ encVList xs)
      ∧ vdepthList xs ≤ (encVList xs).length
  | [] => by simp [encVList, vdepthList]
  | v :: vs => by
    have h1 := encV_good v
    have h2 := encVList_good vs
    refine ⟨?_, ?_, ?_⟩
    · simp [encVList, h1.1, h2.1]
    · simp [encVList, h1.2.1, h2.2.1]
    · have ha := h1.2.2
      have hb := h2.2.2
      simp only [encVList, vdepthList, List.length_append]
      omega

theorem encVObj_good : (fs : List (Str × Value)) →
    (¬ '\n' ∈ encVObj fs) ∧ (¬ '\r' ∈ encVObj fs)
      ∧ vdepthObj fs ≤ (encVObj fs).length
  | [] => by simp [encVObj, vdepthObj]
  | kv :: fs => by
    have h1 := encV_good kv.2
    have h2 := encVObj_good fs
    refine ⟨?_, ?_, ?_⟩
    · simp [encVObj, escSemi_not_nl kv.1, h1.1, h2.1]
    · simp [encVObj, escSemi_not_cr kv.1, h1.2.1, h2.2.1]
    · have ha := h1.2.2
      have hb := h2.2.2
      simp only [encVObj, vdepthObj, List.length_append, List.length_cons]
      omega

end

mutual

theorem decV_encV : (v : Value) → ∀ (fuel : Nat), vdepth v < fuel → ∀ r,
    decV fuel (encV v ++ r) = some (v, r)
  | .null => by
    intro fuel h r
    cases fuel with
    | zero => omega
    | succ f => simp [encV, decV]
  | .bool b => by
    intro fuel h r
    cases fuel with
    | zero => omega
    | succ f => cases b <;> simp [encV, decV]
  | .num i => by
    intro fuel h r
    cases fuel with
    | zero => omega
    | succ f => simp [encV, decV, decIntSemi_encInt]
  | .str s => by
    intro fuel h r
    cases fuel with
    | zero => omega
    | succ f =>
      have ht := takeSemi_escaped (escSemi s) r
        (fun hc => (escSemi_mem s ';' hc).2.2.1 rfl)
      simp [encV, decV, ht, unescSemi_escSemi]
  | .arr xs => by
    intro fuel h r
    cases fuel with
    | zero => omega
    | succ f =>
      have hd : vdepthList xs < f := by
        simp only [vdepth] at h
        omega
      have hlist := decListWith_encVList xs f
        (fun x hx => lt_of_le_of_lt (vdepth_le_vdepthList x xs hx) hd) r
      have heq : encV (.arr xs) ++ r
          = 'a' :: (natDigs xs.length ++ ';' :: (encVList xs ++ r)) := by
        simp [encV]
      rw [heq]
      simp only [decV]
      rw [if_neg (by decide), if_neg (by decide), if_neg (by decide),
        if_neg (by decide), if_neg (by decide)]
      rw [if_pos trivial]
      rw [digsGo_natDigs]
      simp only [Nat.zero_mul, Nat.zero_add]
      have hgo : digsGo xs.length (';' :: (encVList xs ++ r))
          = (xs.length, ';' :: (encVList xs ++ r)) := rfl
      rw [hgo]
      simp [hlist]
  | .obj fs => by
    intro fuel h r
    cases fuel with
    | zero => omega
    | succ f =>
      have hd : vdepthObj fs < f := by
        simp only [vdepth] at h
        omega
      have hobj := decObjWith_encVObj fs f
        (fun kv hkv => lt_of_le_of_lt (vdepth_le_vdepthObj kv fs hkv) hd) r
      have heq : encV (.obj fs) ++ r
          = 'o' :: (natDigs fs.length ++ ';' :: (encVObj fs ++ r)) := by
        simp [encV]
      rw [heq]
      simp only [decV]
      rw [if_neg (by decide), if_neg (by decide), if_neg (by decide),
        if_neg (by decide), if_neg (by decide), if_neg (by decide)]
      rw [if_pos trivial]
      rw [digsGo_natDigs]
      simp only [Nat.zero_mul, Nat.zero_add]
      have hgo : digsGo fs.length (';' :: (encVObj fs ++ r))
          = (fs.length, ';' :: (encVObj fs ++ r)) := rfl
      rw [hgo]
      simp [hobj]

theorem decListWith_encVList : (xs : List Value) → ∀ (fuel : Nat),
    (∀ x ∈ xs, vdepth x < fuel) → ∀ r,
    decListWith (decV fuel) xs.length (encVList xs ++ r) = some (xs, r)
  | [] => by
    intro fuel h r
    simp [encVList, decListWith]
  | x :: vs => by
    intro fuel h r
    have hx := decV_encV x fuel (h x (by simp)) (encVList vs ++ r)
    have hvs := decListWith_encVList vs fuel (fun y hy => h y (by simp [hy])) r
    simp [encVList, decListWith, List.append_assoc, hx, hvs]

theorem decObjWith_encVObj : (fs : List (Str × Value)) → ∀ (fuel : Nat),
    (∀ kv ∈ fs, vdepth kv.2 < fuel) → ∀ r,
    decObjWith (decV fuel) fs.length (encVObj fs ++ r) = some (fs, r)
  | [] => by
    intro fuel h r
    simp [encVObj, decObjWith]
  | kv :: fs => by
    intro fuel h r
    have htake := takeSemi_escaped (escSemi kv.1) (encV kv.2 ++ (encVObj fs ++ r))
      (fun hc => (escSemi_mem _ ';' hc).2.2.1 rfl)
    have hv := decV_encV kv.2 fuel (h kv (by simp)) (encVObj fs ++ r)
    have hfs := decObjWith_encVObj fs fuel (fun y hy => h y (by simp [hy])) r
    simp [encVObj, decObjWith, List.append_assoc, htake, hv, hfs, unescSemi_escSemi]

end

/-! ## Claim C5: line and block lemmas -/

theorem parseLine_lineOf (k : Str) (v : Value) : parseLine (lineOf (k, v)) = some (k, v) := by
  unfold parseLine lineOf
  rw [show escSemi (k, v).1 ++ ':' :: ' ' :: encV (k, v).2
      = escSemi k ++ ':' :: (' ' :: encV v) from rfl]
  rw [splitColon_escaped _ _ (escSemi_not_colon k)]
  have h := decV_encV v (encV v).length (encV_good v).2.2 []
  rw [List.append_nil] at h
  simp [h, unescSemi_escSemi]

theorem splitNl_no_nl (l : Str) (h : ¬ '\n' ∈ l) : splitNl l = [l] := by
  induction l with
  | nil => rfl
  | cons c l ih =>
    simp only [List.mem_cons, not_or] at h
    have hc : ¬ (c = '\n') := fun hh => h.1 hh.symm
    simp [splitNl, hc, ih h.2]

theorem splitNl_append (l rest : Str) (h : ¬ '\n' ∈ l) :
    splitNl (l ++ '\n' :: rest) = l :: splitNl rest := by
  induction l with
  | nil => simp [splitNl]
  | cons c l ih =>
    simp only [List.mem_cons, not_or] at h
    have hc : ¬ (c = '\n') := fun hh => h.1 hh.symm
    simp only [List.cons_append, splitNl, hc, if_false, List.append_eq, ih h.2]

theorem splitNl_interNl (ls : List Str) (h : ls ≠ [])
    (hl : ∀ l ∈ ls, ¬ '\n' ∈ l) : splitNl (interNl ls) = ls := by
  induction ls with
  | nil => exact absurd rfl h
  | cons l ls ih =>
    cases ls with
    | nil => exact splitNl_no_nl l (hl l (by simp))
    | cons a ls2 =>
      rw [show interNl (l :: a :: ls2) = l ++ '\n' :: interNl (a :: ls2) from rfl]
      rw [splitNl_append l _ (hl l (by simp))]
      rw [ih (by simp) (fun x hx => hl x (by simp [List.mem_cons] at hx ⊢; tauto))]

theorem parseLines_map (m : Fields) : parseLines (m.map lineOf) = some m := by
  induction m with
  | nil => rfl
  | cons kv rest ih =>
    obtain ⟨k, v⟩ := kv
    simp [parseLines, parseLine_lineOf, ih]

theorem matchDelim_none_of (c : Char) (t : Str) (h1 : ¬ c = '\n') (h2 : ¬ c = '\r') :
    matchDelim (c :: t) = none := by
  simp [matchDelim, h1, h2]

theorem scanDelim_walk (l rest : Str) (h : ∀ c ∈ l, ¬ c = '\n' ∧ ¬ c = '\r') :
    scanDelim (l ++ rest) = (scanDelim rest).map fun p => (l ++ p.1, p.2) := by
  induction l with
  | nil =>
    cases hr : scanDelim rest with
    | none => simp [hr]
    | some p => simp [hr]
  | cons c l ih =>
    have hc := h c (by simp)
    have hrec := ih (fun x hx => h x (by simp [hx]))
    rw [List.cons_append, scanDelim, matchDelim_none_of c _ hc.1 hc.2, hrec]
    cases hr : scanDelim rest with
    | none => simp
    | some p => simp

theorem stripNl_none_of (c : Char) (t : Str) (h1 : ¬ c = '\n') (h2 : ¬ c = '\r') :
    stripNl (c :: t) = none := by
  simp [stripNl, h1, h2]

theorem matchDashes_line_none (l : Str) (z : Str)
    (hnl : ¬ '\n' ∈ l) (hcr : ¬ '\r' ∈ l) (hd : l ≠ ['-', '-', '-']) :
    matchDashes (l ++ '\n' :: z) = none := by
  match l with
  | [] => simp [matchDashes]
  | [a] =>
    by_cases ha : a = '-' <;> simp [matchDashes, ha]
  | [a, b] =>
    by_cases ha : a = '-' <;> by_cases hb : b = '-' <;> simp [matchDashes, ha, hb]
  | a :: b :: c :: l2 =>
    by_cases ha : a = '-'
    · subst ha
      by_cases hb : b = '-'
      · subst hb
        by_cases hc : c = '-'
        · subst hc
          cases l2 with
          | nil => exact absurd rfl hd
          | cons d l3 =>
            have hdnl : ¬ (d = '\n') := fun hh => hnl (by simp [hh])
            have hdcr : ¬ (d = '\r') := fun hh => hcr (by simp [hh])
            simp [matchDashes, stripNl_none_of d _ hdnl hdcr]
        · simp [matchDashes, hc]
      · simp [matchDashes, hb]
    · simp [matchDashes, ha]

theorem scanDelim_single (body : Str) :
    scanDelim ('\n' :: ('-' :: '-' :: '-' :: '\n' :: '\n' :: body))
      = some ([], '\n' :: body) := by
  simp [scanDelim, matchDelim, matchDashes, stripNl]

theorem scanDelim_lines (ls : List Str) (body : Str) (h : ls ≠ [])
    (hg : ∀ l ∈ ls, (¬ '\n' ∈ l) ∧ (¬ '\r' ∈ l) ∧ l ≠ ['-', '-', '-']) :
    scanDelim ((ls.foldr (fun l r => l ++ '\n' :: r) [])
        ++ ('-' :: '-' :: '-' :: '\n' :: '\n' :: body))
      = some (interNl ls, '\n' :: body) := by
  induction ls with
  | nil => exact absurd rfl h
  | cons l ls ih =>
    have hl := hg l (by simp)
    have hmem : ∀ c ∈ l, ¬ c = '\n' ∧ ¬ c = '\r' := by
      intro c hc
      exact ⟨fun hh => hl.1 (hh ▸ hc), fun hh => hl.2.1 (hh ▸ hc)⟩
    cases ls with
    | nil =>
      rw [show ((([l].foldr (fun l r => l ++ '\n' :: r) []))
            ++ ('-' :: '-' :: '-' :: '\n' :: '\n' :: body))
          = l ++ ('\n' :: ('-' :: '-' :: '-' :: '\n' :: '\n' :: body)) from by simp]
      rw [scanDelim_walk l _ hmem, scanDelim_single]
      simp [interNl]
    | cons a ls2 =>
      rw [show ((((l :: a :: ls2).foldr (fun l r => l ++ '\n' :: r) []))
            ++ ('-' :: '-' :: '-' :: '\n' :: '\n' :: body))
          = l ++ ('\n' :: (((a :: ls2).foldr (fun l r => l ++ '\n' :: r) [])
              ++ ('-' :: '-' :: '-' :: '\n' :: '\n' :: body))) from by simp]
      rw [scanDelim_walk l _ hmem]
      have ha := hg a (by simp)
      have hmd : matchDelim ('\n' :: (((a :: ls2).foldr (fun l r => l ++ '\n' :: r) [])
          ++ ('-' :: '-' :: '-' :: '\n' :: '\n' :: body))) = none := by
        rw [show (((a :: ls2).foldr (fun l r => l ++ '\n' :: r) [])
              ++ ('-' :: '-' :: '-' :: '\n' :: '\n' :: body))
            = a ++ '\n' :: ((ls2.foldr (fun l r => l ++ '\n' :: r) [])
                ++ ('-' :: '-' :: '-' :: '\n' :: '\n' :: body)) from by simp]
        rw [show matchDelim ('\n' :: (a ++ '\n' :: ((ls2.foldr (fun l r => l ++ '\n' :: r) [])
              ++ ('-' :: '-' :: '-' :: '\n' :: '\n' :: body))))
            = matchDashes (a ++ '\n' :: ((ls2.foldr (fun l r => l ++ '\n' :: r) [])
              ++ ('-' :: '-' :: '-' :: '\n' :: '\n' :: body))) from by
          simp [matchDelim]]
        exact matchDashes_line_none a _ ha.1 ha.2.1 ha.2.2
      rw [scanDelim, hmd]
      rw [ih (by simp) (fun x hx => hg x (by simp [hx]))]
      cases ls2 <;> simp [interNl]

theorem lineOf_good (kv : Str × Value) :
    (¬ '\n' ∈ lineOf kv) ∧ (¬ '\r' ∈ lineOf kv) ∧ lineOf kv ≠ ['-', '-', '-'] := by
  refine ⟨?_, ?_, ?_⟩
  · simp [lineOf, escSemi_not_nl kv.1, (encV_good kv.2).1]
  · simp [lineOf, escSemi_not_cr kv.1, (encV_good kv.2).2.1]
  · intro heq
    have hcol : ':' ∈ lineOf kv := by simp [lineOf]
    rw [heq] at hcol
    simp at hcol

theorem mem_interNl_head (c : Char) (l : Str) (ls : List Str) (h : c ∈ l) :
    c ∈ interNl (l :: ls) := by
  cases ls with
  | nil => simpa [interNl]
  | cons a ls2 => simp [interNl, h]

theorem trimStr_cons_nl (b : Str) : trimStr ('\n' :: b) = trimStr b := by
  unfold trimStr
  rw [List.dropWhile_cons]
  simp [isWs]

/-- Counterexample to C5: write-then-read does not reproduce the body text
verbatim — a body with trailing whitespace is trimmed on read. -/
theorem c5_roundtrip_counterexample :
    parse_md_file (write_md_file [] (cs "x ")) = ([], cs "x")
    ∧ cs "x" ≠ cs "x " := ⟨rfl, by decide⟩

/-- Claim C5 (amended): writing a frontmatter document from a mapping with no
null values and a body, then reading the file back, reproduces the same field
mapping and the whitespace-trimmed body text (the read trims the body, so the
body is reproduced verbatim exactly when it has no leading or trailing
whitespace). -/
theorem c5_roundtrip_amended (fm : Fields) (body : Str)
    (h : ∀ kv ∈ fm, kv.2.isNull = false) :
    parse_md_file (write_md_file fm body) = (fm, trimStr body) := by
  have hclean : fm.filter (fun kv => !kv.2.isNull) = fm := by
    rw [List.filter_eq_self]
    intro a ha
    simp [h a ha]
  cases fm with
  | nil =>
    have hcontent : write_md_file [] body
        = '-' :: '-' :: '-' :: '\n' :: ('\x7b' :: '\x7d' ::
            ('\n' :: ('-' :: '-' :: '-' :: '\n' :: '\n' :: body))) := rfl
    rw [hcontent]
    unfold parse_md_file
    rw [show mdShape ('-' :: '-' :: '-' :: '\n' :: ('\x7b' :: '\x7d' ::
          ('\n' :: ('-' :: '-' :: '-' :: '\n' :: '\n' :: body))))
        = scanDelim ('\x7b' :: '\x7d' ::
            ('\n' :: ('-' :: '-' :: '-' :: '\n' :: '\n' :: body))) from by
      simp [mdShape, stripNl]]
    rw [show ('\x7b' :: '\x7d' :: ('\n' :: ('-' :: '-' :: '-' :: '\n' :: '\n' :: body)))
        = ['\x7b', '\x7d'] ++ ('\n' :: ('-' :: '-' :: '-' :: '\n' :: '\n' :: body)) from rfl]
    rw [scanDelim_walk ['\x7b', '\x7d'] _ (by decide), scanDelim_single]
    simp [yamlParse, trimStr_cons_nl]
  | cons kv rest =>
    have hcontent : write_md_file (kv :: rest) body
        = '-' :: '-' :: '-' :: '\n' ::
            ((((kv :: rest).map lineOf).foldr (fun l r => l ++ '\n' :: r) [])
              ++ ('-' :: '-' :: '-' :: '\n' :: '\n' :: body)) := by
      unfold write_md_file
      rw [show (kv :: rest).filter (fun kv => !kv.2.isNull) = kv :: rest from hclean]
      simp [yamlToString, cs]
    rw [hcontent]
    unfold parse_md_file
    rw [show mdShape ('-' :: '-' :: '-' :: '\n' ::
          ((((kv :: rest).map lineOf).foldr (fun l r => l ++ '\n' :: r) [])
            ++ ('-' :: '-' :: '-' :: '\n' :: '\n' :: body)))
        = scanDelim ((((kv :: rest).map lineOf).foldr (fun l r => l ++ '\n' :: r) [])
            ++ ('-' :: '-' :: '-' :: '\n' :: '\n' :: body)) from by
      simp [mdShape, stripNl]]
    rw [scanDelim_lines ((kv :: rest).map lineOf) body (by simp)
      (by intro l hl
          simp only [List.mem_map] at hl
          obtain ⟨kv2, _, hkv2⟩ := hl
          exact hkv2 ▸ lineOf_good kv2)]
    have hne : interNl ((kv :: rest).map lineOf) ≠ ['\x7b', '\x7d'] := by
      intro heq
      have hcol : ':' ∈ interNl ((kv :: rest).map lineOf) := by
        rw [List.map_cons]
        exact mem_interNl_head ':' (lineOf kv) _ (by simp [lineOf])
      rw [heq] at hcol
      simp at hcol
    have hsplit : splitNl (interNl ((kv :: rest).map lineOf)) = (kv :: rest).map lineOf := by
      apply splitNl_interNl _ (by simp)
      intro l hl
      simp only [List.mem_map] at hl
      obtain ⟨kv2, _, hkv2⟩ := hl
      exact hkv2 ▸ (lineOf_good kv2).1
    show ((yamlParse (interNl (List.map lineOf (kv :: rest)))).getD [],
        trimStr ('\n' :: body)) = (kv :: rest, trimStr body)
    unfold yamlParse
    rw [if_neg hne, hsplit, parseLines_map]
    simp [trimStr_cons_nl]

/-- Witness for the amended C5. -/
theorem c5_roundtrip_amended_witness :
    parse_md_file (write_md_file
        [(cs "temperature", .num 1), (cs "mode", .str (cs "fast"))] (cs "Find things"))
      = ([(cs "temperature", .num 1), (cs "mode", .str (cs "fast"))],
         trimStr (cs "Find things")) :=
  c5_roundtrip_amended
    [(cs "temperature", .num 1), (cs "mode", .str (cs "fast"))] (cs "Find things")
    (by decide)
